import Mathlib

/-!
Verification development for the cross-platform filesystem path/lifecycle
core (PlatformFilename, existence query, directory and file lifecycle,
TemporaryDir).  The repository ships only the test file
`cpp/src/arrow/util/io-util-test.cc`; the implementation `io-util.{h,cc}`
is absent, so every operation below is modelled from the specification,
on the POSIX branch of the tests (narrow strings, `/` separator).

The filesystem is a finite association list from segment paths to entry
kinds; the root path `[]` always exists as a directory.
-/

set_option autoImplicit false

namespace ArrowIoUtil

/-- Kind of a filesystem entry: directory or plain file. -/
inductive Kind where
  | Dir
  | File
deriving DecidableEq, Repr

/-- Modelled from the spec: the two error kinds of the missing
`io-util.{h,cc}` — `IOError` for OS-level failures and `InvalidPath` for
strings not representable as a path. -/
inductive Err where
  | IOError
  | InvalidPath
deriving DecidableEq, Repr

/-- A path segment: a list of characters (one component between separators). -/
abbrev Seg := List Char

/-- A path: a list of segments from the root. -/
abbrev Path := List Seg

/-- The filesystem state: a finite association list from paths to kinds. -/
abbrev FS := List (Path × Kind)

/-- Look a path up in the filesystem (first matching entry). -/
def lookupK : FS → Path → Option Kind
  | [], _ => none
  | (q, k) :: rest, p => if q = p then some k else lookupK rest p

/-- Existence query at the path level: the root `[]` always exists as a
directory; other paths exist iff listed. -/
def findK (fs : FS) (p : Path) : Option Kind :=
  if p = [] then some Kind.Dir else lookupK fs p

/-- Split a character list on `/`, keeping empty pieces. -/
def splitSeg : List Char → List Seg
  | [] => [[]]
  | c :: cs =>
    if c = '/' then [] :: splitSeg cs
    else
      match splitSeg cs with
      | [] => [[c]]
      | s :: rest => (c :: s) :: rest

/-- The segments of a character list: split on `/`, dropping empty pieces
(so leading, trailing and doubled separators are irrelevant). -/
def segsL (l : List Char) : Path :=
  (splitSeg l).filter (fun t => !t.isEmpty)

/-- Modelled from the spec: `PlatformFilename` of the missing io-util,
holding the portable (UTF-8, `/`-separated) and native forms; on the POSIX
branch modelled here the two forms are the same string. -/
structure PlatformFilename where
  portable : String
  native : String
deriving DecidableEq, Repr

/-- The direct constructor from a native-form string, bypassing validation
(used by the test as `PlatformFilename(fn.ToNative() + "some-child")`). -/
def PlatformFilename.ofNative (n : String) : PlatformFilename := ⟨n, n⟩

/-- `ToString`: the portable form accessor, side-effect-free. -/
def PlatformFilename.ToString (f : PlatformFilename) : String := f.portable

/-- `ToNative`: the native form accessor, side-effect-free. -/
def PlatformFilename.ToNative (f : PlatformFilename) : String := f.native

/-- Does the string contain a NUL byte? -/
def hasNul (s : String) : Bool := s.data.contains (Char.ofNat 0)

/-- Modelled from the spec: `PlatformFilename::FromString` of the missing
io-util — parses a UTF-8 string, rejecting NUL bytes; on the POSIX branch
the native form equals the portable form. -/
def PlatformFilename.FromString (s : String) : Except Err PlatformFilename :=
  if hasNul s then .error Err.InvalidPath else .ok ⟨s, s⟩

/-- Does the string end in the separator character `/`? -/
def endsWithSep (s : String) : Bool := s.data.getLast? == some '/'

/-- Purely lexical join at the string level: append the child, inserting a
separator exactly when the base does not already end in one. -/
def joinStr (b c : String) : String :=
  if endsWithSep b then b ++ c else b ++ "/" ++ c

/-- Modelled from the spec: `PlatformFilename::Join` of the missing
io-util — appends a child segment, inserting exactly one separator, purely
lexically; rejects NUL bytes in the child. -/
def PlatformFilename.Join (f : PlatformFilename) (c : String) :
    Except Err PlatformFilename :=
  if hasNul c then .error Err.InvalidPath
  else .ok (PlatformFilename.ofNative (joinStr f.native c))

/-- The segment path a filename denotes (from its native form). -/
def segsOf (f : PlatformFilename) : Path := segsL f.native.data

/-- Modelled from the spec: `CreateDir` of the missing io-util — the parent
must already exist as a directory (else `IOError`, as `mkdir` path
resolution fails first); an existing directory yields `created = false`
with no error; an existing non-directory yields `IOError`; otherwise the
leaf directory is created and `created = true`. -/
def createDir (fs : FS) (p : Path) : Except Err (FS × Bool) :=
  if findK fs p.dropLast = some Kind.Dir then
    match findK fs p with
    | some Kind.Dir => .ok (fs, false)
    | some Kind.File => .error Err.IOError
    | none => .ok ((p, Kind.Dir) :: fs, true)
  else .error Err.IOError

/-- Remove a path and everything below it. -/
def eraseTree (fs : FS) (p : Path) : FS :=
  fs.filter (fun e => !(p.isPrefixOf e.1))

/-- Remove exactly one path. -/
def eraseOne (fs : FS) (p : Path) : FS :=
  fs.filter (fun e => !(decide (e.1 = p)))

/-- Modelled from the spec: `DeleteDirTree` of the missing io-util — a
missing path is an idempotent no-op (`deleted = false`, no error); an
existing path is removed together with every entry below it
(`deleted = true`). -/
def deleteDirTree (fs : FS) (p : Path) : Except Err (FS × Bool) :=
  match findK fs p with
  | none => .ok (fs, false)
  | some _ => .ok (eraseTree fs p, true)

/-- Modelled from the spec: `DeleteFile` of the missing io-util — a missing
path is an idempotent no-op (`deleted = false`, no error); a directory is
never removed (`IOError`); a plain file is removed (`deleted = true`). -/
def deleteFile (fs : FS) (p : Path) : Except Err (FS × Bool) :=
  match findK fs p with
  | none => .ok (fs, false)
  | some Kind.Dir => .error Err.IOError
  | some Kind.File => .ok (eraseOne fs p, true)

/-- Modelled from the spec: `FileExists` of the missing io-util — never
fails on absence: reports whether the path resolves to any entry. -/
def fileExists (fs : FS) (f : PlatformFilename) : Except Err Bool :=
  .ok ((findK fs (segsOf f)).isSome)

/-- `CreateDir` on a filename: acts on the segment path it denotes. -/
def createDirF (fs : FS) (f : PlatformFilename) : Except Err (FS × Bool) :=
  createDir fs (segsOf f)

/-- `DeleteDirTree` on a filename. -/
def deleteDirTreeF (fs : FS) (f : PlatformFilename) : Except Err (FS × Bool) :=
  deleteDirTree fs (segsOf f)

/-- `DeleteFile` on a filename. -/
def deleteFileF (fs : FS) (f : PlatformFilename) : Except Err (FS × Bool) :=
  deleteFile fs (segsOf f)

/-- Modelled from the spec: `TemporaryDir` of the missing io-util — the
owning wrapper around the filename of the created scratch directory. -/
structure TemporaryDir where
  path : PlatformFilename
deriving DecidableEq, Repr

/-- The candidate temporary name built from a user prefix and a generated
suffix, under the platform temp root, with the trailing separator the spec
guarantees. -/
def tempName (pfx sfx : String) : PlatformFilename :=
  PlatformFilename.ofNative ("/tmp/" ++ pfx ++ sfx ++ "/")

/-- Modelled from the spec: `TemporaryDir::Make` of the missing io-util —
tries candidate names `pfx + suffix` in turn (the bounded retry loop made
explicit as the list `sfxs` of generated suffixes); a collision
(`created = false`) moves to the next candidate, exhaustion fails with
`IOError`, and any creation error propagates. -/
def TemporaryDir.Make (pfx : String) (sfxs : List String) (fs : FS) :
    Except Err (TemporaryDir × FS) :=
  match sfxs with
  | [] => .error Err.IOError
  | sfx :: rest =>
    match createDirF fs (tempName pfx sfx) with
    | .ok (fs1, true) => .ok (⟨tempName pfx sfx⟩, fs1)
    | .ok (_, false) => TemporaryDir.Make pfx rest fs
    | .error e => .error e

/-- Modelled from the spec: `TemporaryDir` teardown — recursively deletes
the owned path, suppressing any error (best-effort cleanup during unwind). -/
def TemporaryDir.teardown (td : TemporaryDir) (fs : FS) : FS :=
  match deleteDirTree fs (segsOf td.path) with
  | .ok (fs1, _) => fs1
  | .error _ => fs

/-! ### Helper lemmas -/

theorem lookupK_cons_self (fs : FS) (p : Path) (k : Kind) :
    lookupK ((p, k) :: fs) p = some k := by
  simp [lookupK]

theorem lookupK_cons_ne (fs : FS) (p q : Path) (k : Kind) (h : q ≠ p) :
    lookupK ((q, k) :: fs) p = lookupK fs p := by
  simp [lookupK, h]

theorem dropLast_ne_self (p : Path) (h : p ≠ []) : p.dropLast ≠ p := by
  intro he
  have h1 : p.dropLast.length = p.length := congrArg List.length he
  rw [List.length_dropLast] at h1
  have h2 : 0 < p.length := List.length_pos.mpr h
  omega

theorem findK_nil_path (fs : FS) : findK fs [] = some Kind.Dir := by
  simp [findK]

theorem findK_ne_nil (fs : FS) (p : Path) (h : p ≠ []) :
    findK fs p = lookupK fs p := by
  simp [findK, h]

theorem lookupK_eraseTree (fs : FS) (p q : Path) (h : p <+: q) :
    lookupK (eraseTree fs p) q = none := by
  induction fs with
  | nil => rfl
  | cons e rest ih =>
    have hpq : p.isPrefixOf q = true := List.isPrefixOf_iff_prefix.mpr h
    by_cases he : p.isPrefixOf e.1
    · simpa [eraseTree, List.filter_cons, he] using ih
    · have hne : e.1 ≠ q := by
        intro hq
        rw [hq] at he
        exact he hpq
      simpa [eraseTree, List.filter_cons, he, lookupK, hne] using ih

theorem lookupK_eraseOne (fs : FS) (p : Path) :
    lookupK (eraseOne fs p) p = none := by
  induction fs with
  | nil => rfl
  | cons e rest ih =>
    by_cases he : e.1 = p
    · simpa [eraseOne, List.filter_cons, he] using ih
    · simpa [eraseOne, List.filter_cons, he, lookupK] using ih

theorem splitSeg_ne_nil : ∀ l : List Char, splitSeg l ≠ []
  | [] => by simp [splitSeg]
  | c :: cs => by
    simp only [splitSeg]
    split
    · simp
    · split <;> simp

theorem splitSeg_append_sep (xs ys : List Char) :
    splitSeg (xs ++ '/' :: ys) = splitSeg xs ++ splitSeg ys := by
  induction xs with
  | nil => simp [splitSeg]
  | cons c cs ih =>
    by_cases h : c = '/'
    · subst h
      simp [splitSeg, ih]
    · cases hs : splitSeg cs with
      | nil => exact absurd hs (splitSeg_ne_nil cs)
      | cons s rest =>
        simp [splitSeg, h, ih, hs]

theorem splitSeg_no_sep (l : List Char) (h : '/' ∉ l) : splitSeg l = [l] := by
  induction l with
  | nil => rfl
  | cons c cs ih =>
    have hc : c ≠ '/' := by
      intro hc
      exact h (hc ▸ List.mem_cons_self c cs)
    have hcs : '/' ∉ cs := fun hm => h (List.mem_cons_of_mem _ hm)
    simp [splitSeg, hc, ih hcs]

theorem segsL_append_sep (xs ys : List Char) :
    segsL (xs ++ '/' :: ys) = segsL xs ++ segsL ys := by
  simp [segsL, splitSeg_append_sep, List.filter_append]

theorem segsL_no_sep (l : List Char) (h : '/' ∉ l) (hne : l ≠ []) :
    segsL l = [l] := by
  simp [segsL, splitSeg_no_sep l h, hne]

theorem segsL_trailing (xs : List Char) : segsL (xs ++ ['/']) = segsL xs := by
  have h : xs ++ ['/'] = xs ++ '/' :: [] := rfl
  rw [h, segsL_append_sep]
  simp [segsL, splitSeg]

theorem createDir_ok_true (fs fs1 : FS) (p : Path)
    (h : createDir fs p = .ok (fs1, true)) :
    fs1 = (p, Kind.Dir) :: fs ∧ findK fs p = none := by
  unfold createDir at h
  split at h
  · split at h <;> simp_all
  · simp at h

theorem make_ok (pfx : String) (sfxs : List String) (fs : FS)
    (td : TemporaryDir) (fs1 : FS)
    (h : TemporaryDir.Make pfx sfxs fs = .ok (td, fs1)) :
    ∃ sfx, td.path = tempName pfx sfx ∧
      createDirF fs (tempName pfx sfx) = .ok (fs1, true) := by
  induction sfxs with
  | nil => simp [TemporaryDir.Make] at h
  | cons sfx rest ih =>
    unfold TemporaryDir.Make at h
    split at h
    · rename_i fs' heq
      obtain ⟨h1, h2⟩ : (⟨tempName pfx sfx⟩ : TemporaryDir) = td ∧ fs' = fs1 := by
        simpa using h
      subst h2
      exact ⟨sfx, by rw [← h1], heq⟩
    · exact ih h
    · simp at h

/-! ### Concrete inputs for witnesses and counterexamples -/

def segA : Seg := ['a']

def segB : Seg := ['b']

def segC : Seg := ['c']

/-- A filesystem in which the directory `a` already exists. -/
def fsA : FS := [([segA], Kind.Dir)]

/-- A filesystem holding the directory `a` with nested children `a/b`
(a directory) and `a/b/c` (a file). -/
def fsB : FS :=
  [([segA], Kind.Dir), ([segA, segB], Kind.Dir), ([segA, segB, segC], Kind.File)]

/-! ### Claim theorems -/

/-- C1 counterexample: the claim quantifies over every path whose parent
exists, but on a path that already exists as a directory the first
`CreateDir` call yields `created = false`, not `created = true`: in `fsA`
the parent of path `a` (the root) exists, yet the first call returns
`created = false`. -/
theorem createDir_twice_cex :
    findK fsA ([segA].dropLast) = some Kind.Dir ∧
    createDir fsA [segA] = .ok (fsA, false) :=
  ⟨rfl, rfl⟩

/-- C1 (amended): for every path whose parent exists as a directory and
which does not itself already exist, calling `CreateDir` twice yields
`created = true` then `created = false`, with no error on either call, and
the directory exists after both calls. -/
theorem createDir_idempotent (fs : FS) (p : Path)
    (hpar : findK fs p.dropLast = some Kind.Dir)
    (habs : findK fs p = none) :
    createDir fs p = .ok ((p, Kind.Dir) :: fs, true) ∧
    createDir ((p, Kind.Dir) :: fs) p = .ok ((p, Kind.Dir) :: fs, false) ∧
    findK ((p, Kind.Dir) :: fs) p = some Kind.Dir := by
  have hp : p ≠ [] := by
    intro he
    rw [he, findK_nil_path] at habs
    exact Option.noConfusion habs
  have hfind1 : findK ((p, Kind.Dir) :: fs) p = some Kind.Dir := by
    rw [findK_ne_nil _ _ hp, lookupK_cons_self]
  have hpar1 : findK ((p, Kind.Dir) :: fs) p.dropLast = some Kind.Dir := by
    by_cases hd : p.dropLast = []
    · rw [hd, findK_nil_path]
    · rw [findK_ne_nil _ _ hd, lookupK_cons_ne _ _ _ _ (Ne.symm (dropLast_ne_self p hp))]
      rw [findK_ne_nil _ _ hd] at hpar
      exact hpar
  refine ⟨?_, ?_, hfind1⟩
  · simp [createDir, hpar, habs]
  · simp [createDir, hpar1, hfind1]

/-- C1 witness: the amended idempotence at the concrete fresh path `a` in
the empty filesystem. -/
theorem createDir_idempotent_witness :
    createDir [] [segA] = .ok (([segA], Kind.Dir) :: [], true) ∧
    createDir (([segA], Kind.Dir) :: []) [segA] =
      .ok (([segA], Kind.Dir) :: [], false) ∧
    findK (([segA], Kind.Dir) :: []) [segA] = some Kind.Dir :=
  createDir_idempotent [] [segA] rfl rfl

/-- C2: `DeleteDirTree` is idempotent and recursive — on a non-existent
path it returns `deleted = false` with no error; on an existing directory
it removes the directory and every entry below it and returns
`deleted = true`, after which no path at or below it exists; calling it
again afterward returns `deleted = false` with no error. -/
theorem deleteDirTree_idempotent_recursive (fs : FS) (p : Path) :
    (findK fs p = none → deleteDirTree fs p = .ok (fs, false)) ∧
    (p ≠ [] → lookupK fs p = some Kind.Dir →
      deleteDirTree fs p = .ok (eraseTree fs p, true) ∧
      (∀ q, p <+: q → lookupK (eraseTree fs p) q = none) ∧
      deleteDirTree (eraseTree fs p) p = .ok (eraseTree fs p, false)) := by
  constructor
  · intro h
    simp [deleteDirTree, h]
  · intro hp hdir
    have hfind : findK fs p = some Kind.Dir := by
      rw [findK_ne_nil _ _ hp]
      exact hdir
    have herase : ∀ q, p <+: q → lookupK (eraseTree fs p) q = none :=
      fun q hq => lookupK_eraseTree fs p q hq
    have hnone : findK (eraseTree fs p) p = none := by
      rw [findK_ne_nil _ _ hp]
      exact herase p (List.prefix_refl p)
    exact ⟨by simp [deleteDirTree, hfind], herase, by simp [deleteDirTree, hnone]⟩

/-- C2 witness: deleting the tree rooted at `a` in `fsB` removes the nested
child `a/b` as well, and a second deletion reports `deleted = false`. -/
theorem deleteDirTree_idempotent_recursive_witness :
    deleteDirTree fsB [segA] = .ok (eraseTree fsB [segA], true) ∧
    lookupK (eraseTree fsB [segA]) [segA, segB] = none ∧
    deleteDirTree (eraseTree fsB [segA]) [segA] =
      .ok (eraseTree fsB [segA], false) := by
  have h := (deleteDirTree_idempotent_recursive fsB [segA]).2 (by simp) rfl
  exact ⟨h.1, h.2.1 [segA, segB] ⟨[segB], rfl⟩, h.2.2⟩

/-- C5: `DeleteFile` satisfies the three-way case analysis — an existing
directory yields `IOError` (and, the operation returning an error, no new
state: the directory is untouched); a missing path yields `deleted = false`
with no error; an existing plain file is removed, yields `deleted = true`,
and no longer exists afterward. -/
theorem deleteFile_cases (fs : FS) (p : Path) :
    (findK fs p = some Kind.Dir → deleteFile fs p = .error Err.IOError) ∧
    (findK fs p = none → deleteFile fs p = .ok (fs, false)) ∧
    (findK fs p = some Kind.File →
      deleteFile fs p = .ok (eraseOne fs p, true) ∧
      lookupK (eraseOne fs p) p = none) := by
  refine ⟨fun h => ?_, fun h => ?_, fun h => ⟨?_, lookupK_eraseOne fs p⟩⟩ <;>
    simp [deleteFile, h]

/-- C5 witness: in `fsB`, deleting the directory `a` errors, deleting the
missing path `c` is a no-op, and deleting the plain file `a/b/c` removes
it. -/
theorem deleteFile_cases_witness :
    deleteFile fsB [segA] = .error Err.IOError ∧
    deleteFile fsB [segC] = .ok (fsB, false) ∧
    deleteFile fsB [segA, segB, segC] =
      .ok (eraseOne fsB [segA, segB, segC], true) ∧
    lookupK (eraseOne fsB [segA, segB, segC]) [segA, segB, segC] = none :=
  ⟨(deleteFile_cases fsB [segA]).1 rfl,
   (deleteFile_cases fsB [segC]).2.1 rfl,
   ((deleteFile_cases fsB [segA, segB, segC]).2.2 rfl).1,
   ((deleteFile_cases fsB [segA, segB, segC]).2.2 rfl).2⟩

/-- C6: the existence query never fails merely because the target is
absent — a non-existent path yields success with result `false`, an
existing path success with result `true` (the model has no I/O faults, so
no failure case arises at all). -/
theorem fileExists_never_fails (fs : FS) (f : PlatformFilename) :
    (findK fs (segsOf f) = none → fileExists fs f = .ok false) ∧
    (findK fs (segsOf f) ≠ none → fileExists fs f = .ok true) := by
  constructor
  · intro h
    simp [fileExists, h]
  · intro h
    cases hk : findK fs (segsOf f) with
    | none => exact absurd hk h
    | some k => simp [fileExists, hk]

/-- C6 witness: querying the path `a` in the empty filesystem succeeds with
`false`; querying it in `fsA` succeeds with `true`. -/
theorem fileExists_never_fails_witness :
    fileExists [] (PlatformFilename.ofNative "a") = .ok false ∧
    fileExists fsA (PlatformFilename.ofNative "a") = .ok true :=
  ⟨(fileExists_never_fails [] (PlatformFilename.ofNative "a")).1 (by decide),
   (fileExists_never_fails fsA (PlatformFilename.ofNative "a")).2 (by decide)⟩

/-- C7: `CreateDir` on a path whose parent directory does not exist fails
with `IOError` rather than succeeding or creating intermediate
directories. -/
theorem createDir_missing_parent (fs : FS) (p : Path)
    (h : findK fs p.dropLast = none) :
    createDir fs p = .error Err.IOError := by
  have hne : ¬ findK fs p.dropLast = some Kind.Dir := by
    rw [h]
    simp
  simp [createDir, hne]

/-- C7 witness: creating `a/b` in the empty filesystem (no parent `a`)
fails with `IOError`. -/
theorem createDir_missing_parent_witness :
    createDir [] [segA, segB] = .error Err.IOError :=
  createDir_missing_parent [] [segA, segB] rfl

/-- C8: for every string without NUL bytes, `FromString` succeeds and the
portable form of the result (`ToString`) is exactly the input string. -/
theorem fromString_roundTrip (s : String) (h : hasNul s = false) :
    PlatformFilename.FromString s = .ok (PlatformFilename.ofNative s) ∧
    (PlatformFilename.ofNative s).ToString = s := by
  constructor
  · simp [PlatformFilename.FromString, h, PlatformFilename.ofNative]
  · rfl

/-- C8 witness: the round trip at the concrete forward-slash string
`"a/b"`. -/
theorem fromString_roundTrip_witness :
    PlatformFilename.FromString "a/b" = .ok (PlatformFilename.ofNative "a/b") ∧
    (PlatformFilename.ofNative "a/b").ToString = "a/b" :=
  fromString_roundTrip "a/b" (by decide)

theorem findK_cons_self (fs : FS) (p : Path) (k : Kind) :
    (findK ((p, k) :: fs) p).isSome = true := by
  by_cases hp : p = []
  · subst hp
    simp [findK]
  · rw [findK_ne_nil _ _ hp, lookupK_cons_self]
    rfl

theorem sepData : ("/" : String).data = ['/'] := rfl

theorem endsWithSep_concat (s : String) (h : ∃ xs, s.data = xs ++ ['/']) :
    endsWithSep s = true := by
  obtain ⟨xs, hx⟩ := h
  simp [endsWithSep, hx]

/-- C3: a successful `TemporaryDir.Make pfx` yields a directory whose
portable name contains `pfx` as a substring, whose portable (`ToString`)
and native (`ToNative`) forms both end in the separator, and which exists
in the resulting filesystem state. -/
theorem temporaryDir_make_spec (pfx : String) (sfxs : List String) (fs : FS)
    (td : TemporaryDir) (fs1 : FS)
    (h : TemporaryDir.Make pfx sfxs fs = .ok (td, fs1)) :
    pfx.data <:+: td.path.ToString.data ∧
    endsWithSep td.path.ToString = true ∧
    endsWithSep td.path.ToNative = true ∧
    fileExists fs1 td.path = .ok true := by
  obtain ⟨sfx, hpath, hcreate⟩ := make_ok pfx sfxs fs td fs1 h
  have hcreate' : createDir fs (segsOf (tempName pfx sfx)) = .ok (fs1, true) :=
    hcreate
  obtain ⟨hfs1, -⟩ := createDir_ok_true _ _ _ hcreate'
  have hdata : (tempName pfx sfx).native.data =
      ("/tmp/".data ++ pfx.data ++ sfx.data) ++ ['/'] := by
    simp [tempName, PlatformFilename.ofNative, String.data_append, sepData]
  have hts : td.path.ToString = (tempName pfx sfx).native := by
    rw [hpath]
    rfl
  have htn : td.path.ToNative = (tempName pfx sfx).native := by
    rw [hpath]
    rfl
  refine ⟨?_, ?_, ?_, ?_⟩
  · rw [hts, hdata]
    exact ⟨"/tmp/".data, sfx.data ++ ['/'], by simp⟩
  · exact endsWithSep_concat _ ⟨_, by rw [hts]; exact hdata⟩
  · exact endsWithSep_concat _ ⟨_, by rw [htn]; exact hdata⟩
  · rw [hpath, hfs1]
    simp [fileExists, findK_cons_self]

/-- A filesystem in which only the temp root `/tmp` exists. -/
def fsTmp : FS := [([['t', 'm', 'p']], Kind.Dir)]

/-- The temporary directory the witness scenario creates. -/
def tdW : TemporaryDir := ⟨tempName "p-" "x"⟩

/-- The filesystem state right after the witness `Make` succeeds. -/
def fsW : FS := (segsOf (tempName "p-" "x"), Kind.Dir) :: fsTmp

/-- C3 witness: `Make "p-"` with suffix `"x"` over `fsTmp` succeeds and has
all four spelled-out properties. -/
theorem temporaryDir_make_spec_witness :
    ("p-" : String).data <:+: tdW.path.ToString.data ∧
    endsWithSep tdW.path.ToString = true ∧
    endsWithSep tdW.path.ToNative = true ∧
    fileExists fsW tdW.path = .ok true :=
  temporaryDir_make_spec "p-" ["x"] fsTmp tdW fsW (by rfl)

/-- C4: after a successfully created `TemporaryDir` is torn down, neither
its path nor any entry below it (in particular any child created inside it
during its lifetime) exists any longer. -/
theorem temporaryDir_teardown_spec (pfx : String) (sfxs : List String)
    (fs : FS) (td : TemporaryDir) (fs1 : FS)
    (hmk : TemporaryDir.Make pfx sfxs fs = .ok (td, fs1))
    (fs2 : FS) (hlive : findK fs2 (segsOf td.path) ≠ none) :
    fileExists (TemporaryDir.teardown td fs2) td.path = .ok false ∧
    ∀ q, segsOf td.path <+: q →
      lookupK (TemporaryDir.teardown td fs2) q = none := by
  obtain ⟨sfx, hpath, hcreate⟩ := make_ok pfx sfxs fs td fs1 hmk
  have hcreate' : createDir fs (segsOf (tempName pfx sfx)) = .ok (fs1, true) :=
    hcreate
  obtain ⟨-, habs⟩ := createDir_ok_true _ _ _ hcreate'
  have hne : segsOf td.path ≠ [] := by
    rw [hpath]
    intro he
    rw [he, findK_nil_path] at habs
    exact Option.noConfusion habs
  cases hk : findK fs2 (segsOf td.path) with
  | none => exact absurd hk hlive
  | some k =>
    have hdel : deleteDirTree fs2 (segsOf td.path) =
        .ok (eraseTree fs2 (segsOf td.path), true) := by
      simp [deleteDirTree, hk]
    have hteardown : TemporaryDir.teardown td fs2 =
        eraseTree fs2 (segsOf td.path) := by
      simp [TemporaryDir.teardown, hdel]
    constructor
    · rw [hteardown]
      have hgone : findK (eraseTree fs2 (segsOf td.path)) (segsOf td.path) =
          none := by
        rw [findK_ne_nil _ _ hne]
        exact lookupK_eraseTree _ _ _ (List.prefix_refl _)
      simp [fileExists, hgone]
    · intro q hq
      rw [hteardown]
      exact lookupK_eraseTree _ _ _ hq

/-- The witness filesystem at teardown time: the temporary directory of
`fsW` plus a child directory created inside it during its lifetime. -/
def fsW2 : FS := (segsOf (tempName "p-" "x") ++ [['c']], Kind.Dir) :: fsW

/-- C4 witness: tearing down the witness temporary directory removes both
its root and the child created inside it. -/
theorem temporaryDir_teardown_spec_witness :
    fileExists (TemporaryDir.teardown tdW fsW2) tdW.path = .ok false ∧
    lookupK (TemporaryDir.teardown tdW fsW2)
      (segsOf tdW.path ++ [['c']]) = none := by
  have h := temporaryDir_teardown_spec "p-" ["x"] fsTmp tdW fsW (by rfl)
    fsW2 (by decide)
  exact ⟨h.1, h.2 (segsOf tdW.path ++ [['c']]) ⟨[['c']], rfl⟩⟩

/-- C9: `Join` is purely lexical — it succeeds on a NUL-free child,
producing exactly the base string with the child appended after exactly one
separator (no new separator is added when the base already ends in one),
with no `..` collapsing or symlink resolution; and when the child is a
single non-empty separator-free segment, the resulting filename denotes
precisely the child entry under the base path. -/
theorem join_lexical (base : PlatformFilename) (c : String)
    (hnul : hasNul c = false) :
    PlatformFilename.Join base c =
      .ok (PlatformFilename.ofNative (joinStr base.native c)) ∧
    joinStr base.native c =
      (if endsWithSep base.native then base.native ++ c
       else base.native ++ "/" ++ c) ∧
    ('/' ∉ c.data → c.data ≠ [] →
      segsOf (PlatformFilename.ofNative (joinStr base.native c)) =
        segsOf base ++ [c.data]) := by
  refine ⟨by simp [PlatformFilename.Join, hnul], rfl, fun hsl hcne => ?_⟩
  show segsL (joinStr base.native c).data = segsL base.native.data ++ [c.data]
  unfold joinStr
  by_cases hsep : endsWithSep base.native = true
  · rw [if_pos hsep, String.data_append]
    have hl : base.native.data.getLast? = some '/' := by
      simpa [endsWithSep] using hsep
    obtain ⟨xs, hxs⟩ := List.getLast?_eq_some_iff.mp hl
    rw [hxs]
    have h1 : xs ++ ['/'] ++ c.data = xs ++ '/' :: c.data := by
      simp
    rw [h1, segsL_append_sep, segsL_no_sep c.data hsl hcne, segsL_trailing]
  · rw [if_neg hsep, String.data_append, String.data_append, sepData]
    have h1 : base.native.data ++ ['/'] ++ c.data =
        base.native.data ++ '/' :: c.data := by
      simp
    rw [h1, segsL_append_sep, segsL_no_sep c.data hsl hcne]

/-- C9 witness: joining `"x"` onto the filename `/d` succeeds lexically and
denotes the child `x` under `/d`. -/
theorem join_lexical_witness :
    PlatformFilename.Join (PlatformFilename.ofNative "/d") "x" =
      .ok (PlatformFilename.ofNative (joinStr "/d" "x")) ∧
    segsOf (PlatformFilename.ofNative (joinStr "/d" "x")) =
      segsOf (PlatformFilename.ofNative "/d") ++ [['x']] :=
  ⟨(join_lexical (PlatformFilename.ofNative "/d") "x" (by decide)).1,
   (join_lexical (PlatformFilename.ofNative "/d") "x" (by decide)).2.2
     (by decide) (by decide)⟩

/-- C10: the direct native-form constructor (bypassing `FromString`
validation) denotes the same path: whenever `FromString n` succeeds, its
result is exactly the filename the direct constructor builds from `n`, so
`CreateDir`, `FileExists` and recursive deletion behave identically on the
two. -/
theorem ofNative_constructor_equiv (n : String) (f : PlatformFilename)
    (h : PlatformFilename.FromString n = .ok f) :
    f = PlatformFilename.ofNative n ∧
    (∀ fs, createDirF fs (PlatformFilename.ofNative n) = createDirF fs f) ∧
    (∀ fs, fileExists fs (PlatformFilename.ofNative n) = fileExists fs f) ∧
    (∀ fs, deleteDirTreeF fs (PlatformFilename.ofNative n) =
      deleteDirTreeF fs f) := by
  have hf : f = PlatformFilename.ofNative n := by
    unfold PlatformFilename.FromString at h
    split at h
    · exact absurd h (by simp)
    · simpa [PlatformFilename.ofNative] using h.symm
  exact ⟨hf, fun fs => by rw [hf], fun fs => by rw [hf], fun fs => by rw [hf]⟩

/-- C10 witness: at the concrete native string `"a"`, the validated and the
direct constructions coincide and `CreateDir` treats them identically. -/
theorem ofNative_constructor_equiv_witness :
    (⟨"a", "a"⟩ : PlatformFilename) = PlatformFilename.ofNative "a" ∧
    createDirF [] (PlatformFilename.ofNative "a") =
      createDirF [] (⟨"a", "a"⟩ : PlatformFilename) := by
  have h := ofNative_constructor_equiv "a" ⟨"a", "a"⟩ (by rfl)
  exact ⟨h.1, h.2.1 []⟩

end ArrowIoUtil
